import Mathlib

/-!
Shallow embedding of the columnar chunk vector (`ChunkedVecInt`,
`components/tidb_query_datatype/src/codec/chunk/chunkedvec.rs`) and of the
FIRST aggregate function state machine
(`components/tidb_query_vec_aggr/src/impl_first.rs`) of the skyzh/tikv
vectorized execution slice, together with theorems settling the spec claims.

Modelling conventions:
* machine integers (`usize`, `u8`, `i64`) are `Nat`/`Int` with explicit
  modular arithmetic where wrap-around matters;
* byte buffers (`Vec<u8>`) are `List Nat` with entries below 256;
* a Rust `panic!` / failed `assert!` / out-of-bounds index is the `none`
  case of an `Option` result; a recoverable `Result::Err` is
  `Except.error`.
-/

namespace TikvChunk

/-- `size_of::<Int>()` where `Int = i64`: 8 bytes. -/
def ELEMENT_SIZE : Nat := 8

/-- Little-endian base-256 digits of `n`, `k` bytes (`k` = 8 for i64). -/
def natToLeBytes : Nat → Nat → List Nat
  | 0, _ => []
  | k + 1, n => n % 256 :: natToLeBytes k (n / 256)

/-- Reassemble a natural number from little-endian base-256 digits. -/
def leBytesToNat : List Nat → Nat
  | [] => 0
  | b :: bs => b + 256 * leBytesToNat bs

/-- `NumberEncoder::write_i64_le`: the 8 little-endian bytes of the
two's-complement representation of `v`. -/
def encodeI64LE (v : Int) : List Nat :=
  natToLeBytes 8 (v % (2 ^ 64)).toNat

/-- The `transmute::<&u8, &Int>` read in `get_ref`: reinterpret 8
little-endian bytes as an `i64` (two's complement). -/
def decodeI64LE (bs : List Nat) : Int :=
  let n := leBytesToNat bs
  if n < 2 ^ 63 then (n : Int) else (n : Int) - 2 ^ 64

/-- `Vec::resize(n, fill)`: truncate or pad with `fill` to length `n`. -/
def listResize (l : List Nat) (n : Nat) (fill : Nat) : List Nat :=
  if n ≤ l.length then l.take n else l ++ List.replicate (n - l.length) fill

/-- The columnar chunk vector for the `Int` (i64) logical type:
row count, null count, bit-packed null presence bitmap (one byte per 8
rows, bit set ⇔ value present), and the dense value buffer. -/
structure ChunkedVecInt where
  length : Nat
  null_cnt : Nat
  null_bitmap : List Nat
  data : List Nat
  deriving Repr, DecidableEq

namespace ChunkedVecInt

/-- `ChunkedVecInt::new`: empty vector (the capacity hint only
pre-allocates and has no observable effect). -/
def new (_init_cap : Nat) : ChunkedVecInt :=
  { data := [], null_bitmap := [], null_cnt := 0, length := 0 }

/-- `ChunkedVecInt::is_null`. Fast path: `null_cnt == 0` answers `false`
without touching the bitmap. Slow path reads byte `row_idx >> 3`;
`none` models the `panic!("index out of range!")` when that byte does
not exist. -/
def is_null (c : ChunkedVecInt) (row_idx : Nat) : Option Bool :=
  if c.null_cnt = 0 then
    some false
  else
    match c.null_bitmap[row_idx / 8]? with
    | some null_byte => some (decide (null_byte &&& (1 <<< (row_idx % 8)) = 0))
    | none => none

/-- `ChunkedVecInt::append_null_bitmap`; `on = false` means the datum is
null. Under the buffer invariant the written byte index is always in
range, so `List.set` coincides with the Rust indexed assignment. -/
def append_null_bitmap (c : ChunkedVecInt) («on» : Bool) : ChunkedVecInt :=
  let idx := c.length / 8
  let bm := if c.null_bitmap.length ≤ idx then c.null_bitmap ++ [0] else c.null_bitmap
  if «on» then
    { c with null_bitmap := bm.set idx (bm.getD idx 0 ||| (1 <<< (c.length % 8))) }
  else
    { c with null_bitmap := bm, null_cnt := c.null_cnt + 1 }

/-- `ChunkedVecInt::append_null`: record a null presence bit, pad the
data buffer by one zeroed element slot, advance the length. -/
def append_null (c : ChunkedVecInt) : ChunkedVecInt :=
  let c := c.append_null_bitmap false
  let len := ELEMENT_SIZE + c.data.length
  let c := { c with data := listResize c.data len 0 }
  { c with length := c.length + 1 }

/-- `ChunkedVecInt::finish_append`: mark presence, advance length,
resize the data buffer to `length * ELEMENT_SIZE`. -/
def finish_append (c : ChunkedVecInt) : ChunkedVecInt :=
  let c := c.append_null_bitmap true
  let c := { c with length := c.length + 1 }
  { c with data := listResize c.data (c.length * ELEMENT_SIZE) 0 }

/-- `ChunkedVecInt::append`: write the 8-byte little-endian encoding of
`v`, then `finish_append`. (`write_i64_le` into a `Vec<u8>` cannot
fail, so the `Result` is always `Ok`.) -/
def append (c : ChunkedVecInt) (v : Int) : ChunkedVecInt :=
  finish_append { c with data := c.data ++ encodeI64LE v }

/-- `ChunkedVecInt::from_vec` folded over one element. -/
def appendOpt (c : ChunkedVecInt) (x : Option Int) : ChunkedVecInt :=
  match x with
  | some v => c.append v
  | none => c.append_null

/-- `ChunkedVecInt::from_vec`. -/
def from_vec (l : List (Option Int)) : ChunkedVecInt :=
  l.foldl appendOpt (new l.length)

/-- `ChunkedVecInt::get_ref`: `none` models a panic (from `is_null` or
from slicing `data` out of range); `some none` is a null row; `some
(some v)` is the transmuted value reference. -/
def get_ref (c : ChunkedVecInt) (row_idx : Nat) : Option (Option Int) :=
  match c.is_null row_idx with
  | none => none
  | some true => some none
  | some false =>
    let start := row_idx * ELEMENT_SIZE
    let stop := start + ELEMENT_SIZE
    if stop ≤ c.data.length then
      some (some (decodeI64LE ((c.data.drop start).take ELEMENT_SIZE)))
    else
      none

/-- `ChunkedVecInt::len`. -/
def len (c : ChunkedVecInt) : Nat := c.length

/-- `ChunkedVecInt::is_empty`. -/
def is_empty (c : ChunkedVecInt) : Bool := c.len = 0

end ChunkedVecInt

/-! ## The FIRST aggregate function (`impl_first.rs`) -/

/-- `AggrFnStateFirst<T>`: the per-group accumulator of the FIRST
aggregate function, either still untouched (`Empty`) or holding the
first arrived optional value (`Valued`). -/
inductive AggrFnStateFirst (α : Type) where
  | Empty : AggrFnStateFirst α
  | Valued : Option α → AggrFnStateFirst α
  deriving Repr, DecidableEq

namespace AggrFnStateFirst

/-- `AggrFnStateFirst::new`. -/
def new : AggrFnStateFirst α := Empty

/-- `AggrFnStateFirst::update_unsafe`: store the value only when the
state is still `Empty`; always returns `Ok`, so the new state is
returned directly. -/
def update (s : AggrFnStateFirst α) (value : Option α) : AggrFnStateFirst α :=
  match s with
  | Empty => Valued value
  | Valued v => Valued v

/-- `AggrFnStateFirst::update_repeat_unsafe`: `assert!(repeat_times > 0)`
(`none` models the assertion failure), then a single update. -/
def update_repeat (s : AggrFnStateFirst α) (value : Option α) (repeat_times : Nat) :
    Option (AggrFnStateFirst α) :=
  if repeat_times > 0 then some (s.update value) else none

/-- Modelled from the spec: `ChunkedType::get_option_ref` (the chunked
container of `tidb_query_datatype::codec::data_type`, not part of this
source slice) fetches the value at physical row `i` of the column, or
null; an out-of-range physical index is a fatal contract violation
(`none`). -/
def get_option_ref (physical_values : List (Option α)) (i : Nat) : Option (Option α) :=
  physical_values[i]?

/-- `AggrFnStateFirst::update_vector_unsafe`: only the first entry of
the logical row list matters; an out-of-range physical index panics
(`none`). -/
def update_vector (s : AggrFnStateFirst α) (physical_values : List (Option α))
    (logical_rows : List Nat) : Option (AggrFnStateFirst α) :=
  match logical_rows.head? with
  | some physical_index =>
    match get_option_ref physical_values physical_index with
    | some v => some (s.update v)
    | none => none
  | none => some s

/-- Modelled from the spec: `VectorValue::push` on an output Columnar
Chunk Vector appends one optional value; the output vector is modelled
as the list of its optional entries. -/
def vectorValuePush (target : List (Option α)) (v : Option α) : List (Option α) :=
  target ++ [v]

/-- `AggrFnStateFirst::push_result`: `assert_eq!(target.len(), 1)`
(`none` models the assertion failure), then push a clone of the held
value, or null when the state is still `Empty`, onto the single output
vector. -/
def push_result (s : AggrFnStateFirst α) (target : List (List (Option α))) :
    Option (List (List (Option α))) :=
  match target with
  | [out] =>
    let res := match s with
      | Valued v => v
      | Empty => none
    some [vectorValuePush out res]
  | _ => none

end AggrFnStateFirst

/-! ## The FIRST aggregate definition parser (`impl_first.rs`) -/

/-- The logical value types (`EvalType`) of the engine: a closed set. -/
inductive EvalType where
  | Int | Real | Decimal | DateTime | Duration | Json | Bytes
  deriving Repr, DecidableEq

/-- The wire-level field types (`FieldTypeTp`) relevant to the claims. -/
inductive FieldTypeTp where
  | LongLong | Double | NewDecimal | DateTime | Duration | Json | VarChar | Unspecified
  deriving Repr, DecidableEq

/-- `ExprType` tags of serialized expression-tree nodes. -/
inductive ExprType where
  | First | ColumnRef | Other
  deriving Repr, DecidableEq

/-- A serialized expression-tree node (`tipb::Expr`), restricted to the
fields the FIRST parser reads: node tag, children, declared field type. -/
inductive Expr where
  | mk : ExprType → List Expr → FieldTypeTp → Expr

/-- Node tag of an expression (`Expr::get_tp`). -/
def Expr.tp : Expr → ExprType
  | .mk t _ _ => t

/-- Children of an expression (`Expr::take_children`). -/
def Expr.children : Expr → List Expr
  | .mk _ cs _ => cs

/-- Declared field type of an expression (`Expr::take_field_type`). -/
def Expr.field_type : Expr → FieldTypeTp
  | .mk _ _ ft => ft

/-- Modelled from the spec: `EvalType::try_from(FieldTypeTp)` (in
`tidb_query_datatype`, not part of this source slice) maps a wire field
type to its logical type from the closed set; unsupported types fail. -/
def evalTypeTryFrom : FieldTypeTp → Except String EvalType
  | .LongLong => .ok .Int
  | .Double => .ok .Real
  | .NewDecimal => .ok .Decimal
  | .DateTime => .ok .DateTime
  | .Duration => .ok .Duration
  | .Json => .ok .Json
  | .VarChar => .ok .Bytes
  | .Unspecified => .error "unsupported field type"

/-- Modelled from the spec: `RpnExpressionBuilder::build_from_expr_tree`
(in `tidb_query_vec_expr`, whose dispatch table is in this slice but
whose builder is not) builds the child operand into an RPN expression;
a column reference always builds successfully, and the claims settled
here only exercise column-reference children. -/
def build_from_expr_tree (_child : Expr) : Except String Unit := .ok ()

/-- Result of a successful `AggrFnDefinitionParserFirst::parse`: the
output schema entry pushed, and the logical type tag of the
monomorphized `AggrFnFirst` state-machine constructor that was
instantiated. -/
structure ParseOutput where
  out_schema_entry : FieldTypeTp
  aggr_fn_type : EvalType
  deriving Repr, DecidableEq

/-- `AggrFnDefinitionParserFirst::parse`. Outer `none` models a panic
(the `assert_eq!` on the node tag, or the `unwrap` on a missing child
or on an unsupported child field type); `Except.error` is the
recoverable query-level error; `Except.ok` carries the constructed
state-machine description. The output-type check happens before the
schema push, the expression build and the state-machine construction. -/
def parse (aggr_def : Expr) : Option (Except String ParseOutput) :=
  if aggr_def.tp ≠ ExprType.First then
    none
  else
    match aggr_def.children.head? with
    | none => none
    | some child =>
      match evalTypeTryFrom child.field_type with
      | .error _ => none
      | .ok eval_type =>
        let out_ft := aggr_def.field_type
        match evalTypeTryFrom out_ft with
        | .error e => some (.error e)
        | .ok out_et =>
          if out_et ≠ eval_type then
            some (.error "Unexpected return field type")
          else
            match build_from_expr_tree child with
            | .error e => some (.error e)
            | .ok _ => some (.ok { out_schema_entry := out_ft, aggr_fn_type := eval_type })

/-! ## Derived definitions used by the verification -/

/-- Logical bit `i` of a null-presence bitmap: bit `i % 8` of byte
`i / 8` (reading a byte beyond the buffer as 0). -/
def bitmapBit (bm : List Nat) (i : Nat) : Bool :=
  (bm.getD (i / 8) 0).testBit (i % 8)

/-- The grown (pre-write) bitmap inside `append_null_bitmap`. -/
def grownBitmap (c : ChunkedVecInt) : List Nat :=
  if c.null_bitmap.length ≤ c.length / 8 then c.null_bitmap ++ [0] else c.null_bitmap

/-- The buffer invariant stated by the spec: the data buffer holds
exactly `length` element slots, at most `length` entries are null, and
the null bitmap holds at least `ceil(length / 8)` bytes. -/
def SpecInv (c : ChunkedVecInt) : Prop :=
  c.data.length = c.length * ELEMENT_SIZE ∧
  c.null_cnt ≤ c.length ∧
  (c.length + 7) / 8 ≤ c.null_bitmap.length

instance (c : ChunkedVecInt) : Decidable (SpecInv c) := by
  unfold SpecInv; infer_instance

/-- The exact bitmap invariant maintained by the append operations: the
bitmap holds exactly `ceil(length / 8)` bytes and every bit at a
position `≥ length` is clear. -/
structure BitmapInv (c : ChunkedVecInt) : Prop where
  bm_len : c.null_bitmap.length = (c.length + 7) / 8
  high : ∀ i, c.length ≤ i → bitmapBit c.null_bitmap i = false

/-- The value a FIRST accumulator reports: null while `Empty`, else the
held optional value. -/
def AggrFnStateFirst.heldValue : AggrFnStateFirst α → Option α
  | .Empty => none
  | .Valued v => v

/-- The append sequence of Scenario A (`helper_new_chunked_int` in the
source tests). -/
def sampleList : List (Option Int) :=
  [none, some 233, some 65536, none, some (-233), some 233333333, none]

/-! ## Byte-encoding lemmas -/

theorem leBytesToNat_natToLeBytes (k : Nat) :
    ∀ n : Nat, n < 256 ^ k → leBytesToNat (natToLeBytes k n) = n := by
  induction k with
  | zero =>
    intro n h
    simp only [pow_zero, Nat.lt_one_iff] at h
    simp [natToLeBytes, leBytesToNat, h]
  | succ k ih =>
    intro n h
    have hdiv : n / 256 < 256 ^ k := by
      rw [Nat.div_lt_iff_lt_mul (by norm_num)]
      calc n < 256 ^ (k + 1) := h
        _ = 256 ^ k * 256 := by ring
    simp only [natToLeBytes, leBytesToNat, ih (n / 256) hdiv]
    omega

theorem natToLeBytes_length (k n : Nat) : (natToLeBytes k n).length = k := by
  induction k generalizing n with
  | zero => rfl
  | succ k ih => simp [natToLeBytes, ih]

theorem encodeI64LE_length (v : Int) : (encodeI64LE v).length = 8 :=
  natToLeBytes_length 8 _

theorem decodeI64LE_encodeI64LE (v : Int) (hlo : -(2 ^ 63) ≤ v) (hhi : v < 2 ^ 63) :
    decodeI64LE (encodeI64LE v) = v := by
  have hpos : (0 : Int) < 2 ^ 64 := by positivity
  have hmod : v % (2 ^ 64) = if 0 ≤ v then v else v + 2 ^ 64 := by
    split
    · exact Int.emod_eq_of_lt (by assumption) (by norm_num at hhi ⊢; omega)
    · rw [show v % (2 ^ 64) = (v + 2 ^ 64) % (2 ^ 64) from Int.add_emod_self.symm]
      exact Int.emod_eq_of_lt (by norm_num at hlo ⊢; omega) (by norm_num at hhi ⊢; omega)
  unfold decodeI64LE encodeI64LE
  rw [hmod]
  split
  · have hv : (v % 2 ^ 64 : Int) = v := by rw [hmod]; simp [*]
    have h1 : (v.toNat : Int) = v := Int.toNat_of_nonneg (by assumption)
    have h2 : v.toNat < 256 ^ 8 := by
      have : ((256 : Nat) ^ 8 : Int) = 2 ^ 64 := by norm_num
      omega
    rw [leBytesToNat_natToLeBytes 8 v.toNat h2]
    simp only []
    rw [if_pos (by omega)]
    omega
  · have h0 : (0 : Int) ≤ v + 2 ^ 64 := by norm_num at hlo ⊢; omega
    have h1 : ((v + 2 ^ 64).toNat : Int) = v + 2 ^ 64 := Int.toNat_of_nonneg h0
    have h2 : (v + 2 ^ 64).toNat < 256 ^ 8 := by
      have : ((256 : Nat) ^ 8 : Int) = 2 ^ 64 := by norm_num
      omega
    rw [leBytesToNat_natToLeBytes 8 _ h2]
    simp only []
    rw [if_neg (by norm_num at hlo ⊢; omega)]
    omega

/-! ## Bitmap lemmas -/

theorem and_one_shift_eq_zero_iff (b p : Nat) :
    (b &&& (1 <<< p) = 0) ↔ b.testBit p = false := by
  rw [Nat.one_shiftLeft, Nat.and_two_pow]
  cases h : b.testBit p <;> simp [h]

theorem bitmapBit_nil (i : Nat) : bitmapBit [] i = false := by
  simp [bitmapBit]

theorem bitmapBit_beyond (bm : List Nat) (i : Nat) (h : 8 * bm.length ≤ i) :
    bitmapBit bm i = false := by
  unfold bitmapBit
  rw [List.getD_eq_default _ _ (by omega)]
  exact Nat.zero_testBit _

theorem getD_append_zero (bm : List Nat) (j : Nat) : (bm ++ [0]).getD j 0 = bm.getD j 0 := by
  rcases lt_trichotomy j bm.length with h | h | h
  · rw [List.getD_eq_getElem?_getD, List.getElem?_append_left h, ← List.getD_eq_getElem?_getD]
  · subst h
    rw [List.getD_eq_getElem?_getD, List.getElem?_append_right (le_refl _),
      List.getD_eq_default _ _ (le_refl _)]
    simp
  · rw [List.getD_eq_default _ _ (by simp; omega), List.getD_eq_default _ _ (by omega)]

theorem getD_set_self (bm : List Nat) (j a : Nat) (h : j < bm.length) :
    (bm.set j a).getD j 0 = a := by
  rw [List.getD_eq_getElem?_getD, List.getElem?_set_eq_of_lt a h]
  rfl

theorem getD_set_of_ne (bm : List Nat) (i j a : Nat) (h : i ≠ j) :
    (bm.set i a).getD j 0 = bm.getD j 0 := by
  rw [List.getD_eq_getElem?_getD, List.getElem?_set_ne h, ← List.getD_eq_getElem?_getD]

theorem listResize_length (l : List Nat) (n fill : Nat) : (listResize l n fill).length = n := by
  unfold listResize
  split
  · simp; omega
  · simp; omega

theorem listResize_grow (l : List Nat) (n fill : Nat) (h : l.length < n) :
    listResize l n fill = l ++ List.replicate (n - l.length) fill := by
  unfold listResize
  rw [if_neg (by omega)]

theorem listResize_self (l : List Nat) (fill : Nat) : listResize l l.length fill = l := by
  unfold listResize
  rw [if_pos (le_refl _), List.take_length]

theorem append_null_bitmap_length (c : ChunkedVecInt) (b : Bool) :
    (c.append_null_bitmap b).length = c.length := by
  unfold ChunkedVecInt.append_null_bitmap
  split <;> rfl

theorem append_null_bitmap_data (c : ChunkedVecInt) (b : Bool) :
    (c.append_null_bitmap b).data = c.data := by
  unfold ChunkedVecInt.append_null_bitmap
  split <;> rfl

theorem append_null_bitmap_null_cnt (c : ChunkedVecInt) (b : Bool) :
    (c.append_null_bitmap b).null_cnt = (if b then c.null_cnt else c.null_cnt + 1) := by
  unfold ChunkedVecInt.append_null_bitmap
  split <;> rfl

theorem append_null_bitmap_bitmap (c : ChunkedVecInt) (b : Bool) :
    (c.append_null_bitmap b).null_bitmap =
      if b then
        (grownBitmap c).set (c.length / 8)
          ((grownBitmap c).getD (c.length / 8) 0 ||| (1 <<< (c.length % 8)))
      else grownBitmap c := by
  unfold ChunkedVecInt.append_null_bitmap grownBitmap
  split <;> rfl

theorem grownBitmap_getD (c : ChunkedVecInt) (j : Nat) :
    (grownBitmap c).getD j 0 = c.null_bitmap.getD j 0 := by
  unfold grownBitmap
  split
  · exact getD_append_zero _ j
  · rfl

theorem grownBitmap_length (c : ChunkedVecInt)
    (hlen : c.null_bitmap.length = (c.length + 7) / 8) :
    (grownBitmap c).length = (c.length + 1 + 7) / 8 := by
  unfold grownBitmap
  split
  next h => simp only [List.length_append, List.length_singleton]; omega
  next h => omega

/-- Behaviour of `append_null_bitmap` when the bitmap is exactly sized:
the record's other fields are untouched, the bitmap grows to cover the
next row, the bit of row `length` becomes the presence flag, and every
other logical bit keeps its value. -/
theorem append_null_bitmap_spec (c : ChunkedVecInt) (b : Bool)
    (hlen : c.null_bitmap.length = (c.length + 7) / 8)
    (hhigh : ∀ i, c.length ≤ i → bitmapBit c.null_bitmap i = false) :
    (c.append_null_bitmap b).length = c.length ∧
    (c.append_null_bitmap b).data = c.data ∧
    (c.append_null_bitmap b).null_cnt = (if b then c.null_cnt else c.null_cnt + 1) ∧
    (c.append_null_bitmap b).null_bitmap.length = (c.length + 1 + 7) / 8 ∧
    bitmapBit (c.append_null_bitmap b).null_bitmap c.length = b ∧
    ∀ i, i ≠ c.length →
      bitmapBit (c.append_null_bitmap b).null_bitmap i = bitmapBit c.null_bitmap i := by
  have hF2 : (grownBitmap c).length = (c.length + 1 + 7) / 8 := grownBitmap_length c hlen
  have hF3 : c.length / 8 < (grownBitmap c).length := by omega
  refine ⟨append_null_bitmap_length c b, append_null_bitmap_data c b,
    append_null_bitmap_null_cnt c b, ?_, ?_, ?_⟩
  · rw [append_null_bitmap_bitmap]
    cases b
    · simpa using hF2
    · simp only [if_true, List.length_set]
      simpa using hF2
  · rw [append_null_bitmap_bitmap]
    cases b
    · simp only [Bool.false_eq_true, if_false]
      unfold bitmapBit
      rw [grownBitmap_getD]
      exact hhigh c.length (le_refl _)
    · simp only [if_true]
      unfold bitmapBit
      rw [getD_set_self _ _ _ hF3, Nat.one_shiftLeft, Nat.testBit_or,
        Nat.testBit_two_pow_self]
      simp
  · intro i hi
    rw [append_null_bitmap_bitmap]
    cases b
    · simp only [Bool.false_eq_true, if_false]
      unfold bitmapBit
      rw [grownBitmap_getD]
    · simp only [if_true]
      unfold bitmapBit
      by_cases hj : i / 8 = c.length / 8
      · have hq : i % 8 ≠ c.length % 8 := by omega
        rw [hj, getD_set_self _ _ _ hF3, Nat.one_shiftLeft, Nat.testBit_or,
          Nat.testBit_two_pow_of_ne (fun h => hq h.symm), grownBitmap_getD]
        simp
      · rw [getD_set_of_ne _ _ _ _ (fun h => hj h.symm), grownBitmap_getD]

/-! ## Step lemmas for the append operations -/

theorem append_null_step (c : ChunkedVecInt) (h : BitmapInv c) :
    BitmapInv c.append_null ∧
    c.append_null.length = c.length + 1 ∧
    c.append_null.null_cnt = c.null_cnt + 1 ∧
    c.append_null.data = c.data ++ List.replicate 8 0 ∧
    bitmapBit c.append_null.null_bitmap c.length = false ∧
    ∀ i, i ≠ c.length → bitmapBit c.append_null.null_bitmap i = bitmapBit c.null_bitmap i := by
  obtain ⟨h1, h2, h3, h4, h5, h6⟩ := append_null_bitmap_spec c false h.bm_len h.high
  have hdata : c.append_null.data =
      listResize (c.append_null_bitmap false).data
        (ELEMENT_SIZE + (c.append_null_bitmap false).data.length) 0 := rfl
  have hlen : c.append_null.length = (c.append_null_bitmap false).length + 1 := rfl
  have hbm : c.append_null.null_bitmap = (c.append_null_bitmap false).null_bitmap := rfl
  have hcnt : c.append_null.null_cnt = (c.append_null_bitmap false).null_cnt := rfl
  refine ⟨⟨?_, ?_⟩, ?_, ?_, ?_, ?_, ?_⟩
  · rw [hbm, hlen, h1, h4]
  · intro i hi
    rw [hlen, h1] at hi
    rw [hbm, h6 i (by omega)]
    exact h.high i (by omega)
  · rw [hlen, h1]
  · rw [hcnt, h3]
    simp
  · rw [hdata, h2, listResize_grow _ _ _ (by simp [ELEMENT_SIZE])]
    simp [ELEMENT_SIZE]
  · rw [hbm, h5]
  · intro i hi
    rw [hbm, h6 i hi]

theorem append_step (c : ChunkedVecInt) (v : Int) (h : BitmapInv c) :
    BitmapInv (c.append v) ∧
    (c.append v).length = c.length + 1 ∧
    (c.append v).null_cnt = c.null_cnt ∧
    bitmapBit (c.append v).null_bitmap c.length = true ∧
    ∀ i, i ≠ c.length → bitmapBit (c.append v).null_bitmap i = bitmapBit c.null_bitmap i := by
  set cw : ChunkedVecInt := { c with data := c.data ++ encodeI64LE v } with hcw
  have hwlen : cw.length = c.length := rfl
  have hwbm : cw.null_bitmap = c.null_bitmap := rfl
  obtain ⟨h1, h2, h3, h4, h5, h6⟩ :=
    append_null_bitmap_spec cw true (by rw [hwbm, hwlen]; exact h.bm_len)
      (by rw [hwbm, hwlen]; exact h.high)
  have hlen : (c.append v).length = (cw.append_null_bitmap true).length + 1 := rfl
  have hbm : (c.append v).null_bitmap = (cw.append_null_bitmap true).null_bitmap := rfl
  have hcnt : (c.append v).null_cnt = (cw.append_null_bitmap true).null_cnt := rfl
  rw [hwlen] at h1 h4 h5
  refine ⟨⟨?_, ?_⟩, ?_, ?_, ?_, ?_⟩
  · rw [hbm, hlen, h1, h4]
  · intro i hi
    rw [hlen, h1] at hi
    rw [hbm, h6 i (by rw [hwlen]; omega), hwbm]
    exact h.high i (by omega)
  · rw [hlen, h1]
  · rw [hcnt, h3]
    simp
  · rw [hbm, h5]
  · intro i hi
    rw [hbm, h6 i (by rw [hwlen]; exact hi), hwbm]

/-! ## Characterization of `is_null` -/

theorem is_null_of_no_nulls (c : ChunkedVecInt) (i : Nat) (hz : c.null_cnt = 0) :
    c.is_null i = some false := by
  unfold ChunkedVecInt.is_null
  rw [if_pos hz]

theorem is_null_of_bit (c : ChunkedVecInt) (i : Nat) (hnz : c.null_cnt ≠ 0)
    (hin : i / 8 < c.null_bitmap.length) :
    c.is_null i = some (!bitmapBit c.null_bitmap i) := by
  unfold ChunkedVecInt.is_null
  rw [if_neg hnz, List.getElem?_eq_getElem hin]
  have hb : bitmapBit c.null_bitmap i = (c.null_bitmap[i / 8]).testBit (i % 8) := by
    unfold bitmapBit
    rw [List.getD_eq_getElem _ _ hin]
  cases ht : (c.null_bitmap[i / 8]).testBit (i % 8)
  · simp only [hb, ht, Bool.not_false]
    congr 1
    exact decide_eq_true ((and_one_shift_eq_zero_iff _ _).mpr ht)
  · simp only [hb, ht, Bool.not_true]
    congr 1
    exact decide_eq_false (fun hc => by
      have := (and_one_shift_eq_zero_iff _ _).mp hc
      rw [ht] at this
      simp at this)

theorem is_null_none_of_beyond (c : ChunkedVecInt) (i : Nat) (hnz : c.null_cnt ≠ 0)
    (hout : c.null_bitmap.length ≤ i / 8) :
    c.is_null i = none := by
  unfold ChunkedVecInt.is_null
  rw [if_neg hnz, List.getElem?_eq_none hout]

/-! ## The fold lemma behind `from_vec` -/

theorem appendOpt_foldl_spec (l : List (Option Int)) :
    ∀ c : ChunkedVecInt, BitmapInv c →
    BitmapInv (l.foldl ChunkedVecInt.appendOpt c) ∧
    (l.foldl ChunkedVecInt.appendOpt c).length = c.length + l.length ∧
    (l.foldl ChunkedVecInt.appendOpt c).null_cnt
      = c.null_cnt + l.countP (fun x => x.isNone) ∧
    (∀ i, i < c.length →
      bitmapBit (l.foldl ChunkedVecInt.appendOpt c).null_bitmap i
        = bitmapBit c.null_bitmap i) ∧
    ∀ j, (hj : j < l.length) →
      bitmapBit (l.foldl ChunkedVecInt.appendOpt c).null_bitmap (c.length + j)
        = !(l.get ⟨j, hj⟩).isNone := by
  induction l with
  | nil =>
    intro c hc
    refine ⟨hc, by simp, by simp, fun i _ => rfl, fun j hj => absurd hj (by simp)⟩
  | cons x xs ih =>
    intro c hc
    have hstep :
        BitmapInv (c.appendOpt x) ∧
        (c.appendOpt x).length = c.length + 1 ∧
        (c.appendOpt x).null_cnt = c.null_cnt + (if x.isNone then 1 else 0) ∧
        bitmapBit (c.appendOpt x).null_bitmap c.length = !x.isNone ∧
        ∀ i, i ≠ c.length →
          bitmapBit (c.appendOpt x).null_bitmap i = bitmapBit c.null_bitmap i := by
      cases x with
      | none =>
        obtain ⟨s1, s2, s3, _, s5, s6⟩ := append_null_step c hc
        exact ⟨s1, s2, by simpa using s3, by simpa using s5, s6⟩
      | some v =>
        obtain ⟨s1, s2, s3, s4, s5⟩ := append_step c v hc
        exact ⟨s1, s2, by simpa using s3, by simpa using s4, s5⟩
    obtain ⟨t1, t2, t3, t4, t5⟩ := hstep
    obtain ⟨u1, u2, u3, u4, u5⟩ := ih (c.appendOpt x) t1
    have hfold : (x :: xs).foldl ChunkedVecInt.appendOpt c
        = xs.foldl ChunkedVecInt.appendOpt (c.appendOpt x) := rfl
    rw [hfold]
    refine ⟨u1, ?_, ?_, ?_, ?_⟩
    · rw [u2, t2]
      simp only [List.length_cons]
      omega
    · rw [u3, t3, List.countP_cons]
      cases x
      · simp
        omega
      · simp
    · intro i hi
      rw [u4 i (by omega), t5 i (by omega)]
    · intro j hj
      cases j with
      | zero =>
        simp only [Nat.add_zero]
        rw [u4 c.length (by omega)]
        simpa using t4
      | succ j =>
        have hj2 : j < xs.length := by simpa using hj
        have := u5 j hj2
        rw [t2] at this
        rw [show c.length + (j + 1) = c.length + 1 + j by omega]
        simpa using this

theorem bitmapInv_new (n : Nat) : BitmapInv (ChunkedVecInt.new n) :=
  ⟨by simp [ChunkedVecInt.new], fun i _ => bitmapBit_nil i⟩

theorem from_vec_spec (l : List (Option Int)) :
    BitmapInv (ChunkedVecInt.from_vec l) ∧
    (ChunkedVecInt.from_vec l).length = l.length ∧
    (ChunkedVecInt.from_vec l).null_cnt = l.countP (fun x => x.isNone) ∧
    ∀ j, (hj : j < l.length) →
      bitmapBit (ChunkedVecInt.from_vec l).null_bitmap j = !(l.get ⟨j, hj⟩).isNone := by
  obtain ⟨h1, h2, h3, _, h5⟩ :=
    appendOpt_foldl_spec l (ChunkedVecInt.new l.length) (bitmapInv_new _)
  exact ⟨h1, by simpa [ChunkedVecInt.new] using h2, by simpa [ChunkedVecInt.new] using h3,
    fun j hj => by simpa [ChunkedVecInt.new] using h5 j hj⟩

/-! ## Claim theorems: columnar chunk vector -/

/-- C1: for every sequence of appends mixing `append(v)` and
`append_null()` (folded by `from_vec`), `is_null(i)` returns exactly
whether position `i` was appended as null, for every `i < length`; in
particular the Scenario A sequence gives `len() = 7` and the null
pattern `[T,F,F,T,F,F,T]`. -/
theorem from_vec_null_pattern (l : List (Option Int)) (i : Nat) (h : i < l.length) :
    (ChunkedVecInt.from_vec l).len = l.length ∧
    (ChunkedVecInt.from_vec l).is_null i = some (l.get ⟨i, h⟩).isNone ∧
    (ChunkedVecInt.from_vec sampleList).len = 7 ∧
    (List.range 7).map (ChunkedVecInt.from_vec sampleList).is_null
      = [some true, some false, some false, some true, some false, some false, some true] := by
  obtain ⟨h1, h2, h3, h4⟩ := from_vec_spec l
  refine ⟨by rw [ChunkedVecInt.len, h2], ?_, by decide, by decide⟩
  by_cases hz : (ChunkedVecInt.from_vec l).null_cnt = 0
  · rw [is_null_of_no_nulls _ _ hz]
    rw [h3] at hz
    have hall : ∀ x ∈ l, ¬(x.isNone = true) := List.countP_eq_zero.mp hz
    have := hall _ (l.get_mem i h)
    simp only [Bool.not_eq_true] at this
    rw [this]
  · rw [is_null_of_bit _ _ hz (by rw [h1.bm_len, h2]; omega), h4 i h]
    simp

/-- Witness for C1 at the Scenario A list and row 0. -/
theorem from_vec_null_pattern_witness :
    0 < sampleList.length ∧
    (ChunkedVecInt.from_vec sampleList).is_null 0
      = some (sampleList.get ⟨0, by decide⟩).isNone :=
  ⟨by decide, (from_vec_null_pattern sampleList 0 (by decide)).2.1⟩

/-- C3 counterexample: on the empty vector, row index 0 is not smaller
than the length, yet `is_null` succeeds with an ordinary boolean
instead of failing with an index error (the `null_cnt == 0` fast path
never bounds-checks). -/
theorem is_null_out_of_range_no_error :
    (ChunkedVecInt.new 0).len ≤ 0 ∧ (ChunkedVecInt.new 0).is_null 0 = some false := by
  exact ⟨by decide, by decide⟩

/-- C3 (amended): under the spec's buffer invariant, `is_null` returns
`false` immediately when `null_count == 0` — for every row index, even
out-of-range ones; when `null_count > 0` it fails with an index error
exactly when `row_idx / 8` falls beyond the null bitmap, which is
impossible for `row_idx < length`, so in-range queries always return an
ordinary boolean. -/
theorem is_null_error_characterization (c : ChunkedVecInt) (i : Nat) (h : SpecInv c) :
    (c.null_cnt = 0 → c.is_null i = some false) ∧
    (c.null_cnt ≠ 0 → (c.is_null i = none ↔ c.null_bitmap.length ≤ i / 8)) ∧
    (i < c.length → ∃ b, c.is_null i = some b) := by
  obtain ⟨hd, hc, hb⟩ := h
  refine ⟨fun hz => is_null_of_no_nulls c i hz, fun hnz => ⟨?_, ?_⟩, fun hi => ?_⟩
  · intro hnone
    by_contra hlt
    rw [is_null_of_bit c i hnz (by omega)] at hnone
    exact Option.some_ne_none _ hnone
  · intro hout
    exact is_null_none_of_beyond c i hnz hout
  · by_cases hz : c.null_cnt = 0
    · exact ⟨false, is_null_of_no_nulls c i hz⟩
    · exact ⟨_, is_null_of_bit c i hz (by omega)⟩

/-- Witness for the amended C3 on the Scenario A vector (which has
nulls) at row 0. -/
theorem is_null_error_characterization_witness :
    SpecInv (ChunkedVecInt.from_vec sampleList) ∧
    (ChunkedVecInt.from_vec sampleList).null_cnt ≠ 0 ∧
    ((ChunkedVecInt.from_vec sampleList).is_null 0 = none
      ↔ (ChunkedVecInt.from_vec sampleList).null_bitmap.length ≤ 0 / 8) :=
  ⟨by decide, by decide,
    (is_null_error_characterization (ChunkedVecInt.from_vec sampleList) 0
      (by decide)).2.1 (by decide)⟩

/-- C4: for every i64 value `v` and every well-formed `ChunkedVecInt`,
after `append(v)` at row `i = len()`, `get_ref(i)` returns a non-null
reference whose value equals `v`. -/
theorem append_get_ref_roundtrip (c : ChunkedVecInt) (v : Int)
    (hdata : c.data.length = c.length * ELEMENT_SIZE) (hinv : BitmapInv c)
    (hlo : -(2 ^ 63) ≤ v) (hhi : v < 2 ^ 63) :
    (c.append v).get_ref c.len = some (some v) := by
  obtain ⟨s1, s2, s3, s4, _⟩ := append_step c v hinv
  set cw : ChunkedVecInt := { c with data := c.data ++ encodeI64LE v } with hcw
  have hd1 : (cw.append_null_bitmap true).data = cw.data := append_null_bitmap_data cw true
  have hl1 : (cw.append_null_bitmap true).length = c.length := append_null_bitmap_length cw true
  have hdat0 : (c.append v).data =
      listResize (cw.append_null_bitmap true).data
        (((cw.append_null_bitmap true).length + 1) * ELEMENT_SIZE) 0 := rfl
  have hcwlen : cw.data.length = (c.length + 1) * ELEMENT_SIZE := by
    rw [hcw]
    simp only [List.length_append, encodeI64LE_length]
    simp [ELEMENT_SIZE] at hdata ⊢
    omega
  have hdat : (c.append v).data = c.data ++ encodeI64LE v := by
    rw [hdat0, hd1, hl1, show ((c.length + 1) * ELEMENT_SIZE) = cw.data.length from hcwlen.symm,
      listResize_self]
  have hnull : (c.append v).is_null c.length = some false := by
    by_cases hz : (c.append v).null_cnt = 0
    · exact is_null_of_no_nulls _ _ hz
    · rw [is_null_of_bit _ _ hz (by rw [s1.bm_len, s2]; omega), s4]
      rfl
  have hstop : c.length * ELEMENT_SIZE + ELEMENT_SIZE ≤ (c.append v).data.length := by
    rw [hdat]
    simp only [List.length_append, encodeI64LE_length]
    simp [ELEMENT_SIZE] at hdata ⊢
    omega
  show (c.append v).get_ref c.length = some (some v)
  unfold ChunkedVecInt.get_ref
  rw [hnull]
  simp only [if_pos hstop]
  rw [hdat, show c.length * ELEMENT_SIZE = c.data.length from by rw [hdata],
    List.drop_left, show ELEMENT_SIZE = (encodeI64LE v).length from (encodeI64LE_length v).symm,
    List.take_length, decodeI64LE_encodeI64LE v hlo hhi]

/-- Witness for C4: appending 233 to the empty vector and reading it
back. -/
theorem append_get_ref_roundtrip_witness :
    ((ChunkedVecInt.new 0).data.length = (ChunkedVecInt.new 0).length * ELEMENT_SIZE) ∧
    ((ChunkedVecInt.new 0).append 233).get_ref (ChunkedVecInt.new 0).len
      = some (some 233) :=
  ⟨by decide, append_get_ref_roundtrip (ChunkedVecInt.new 0) 233 (by decide)
    (bitmapInv_new 0) (by norm_num) (by norm_num)⟩

/-- Auxiliary for C9: one `append_null_bitmap` call keeps the bitmap at
least `ceil(length / 8)` bytes long for the grown row count. -/
theorem append_null_bitmap_grow_ge (c : ChunkedVecInt) (b : Bool)
    (h : (c.length + 7) / 8 ≤ c.null_bitmap.length) :
    (c.length + 1 + 7) / 8 ≤ (c.append_null_bitmap b).null_bitmap.length := by
  rw [append_null_bitmap_bitmap]
  have hg : (c.length + 1 + 7) / 8 ≤ (grownBitmap c).length := by
    unfold grownBitmap
    split
    next hp => simp only [List.length_append, List.length_singleton]; omega
    next hp => omega
  cases b
  · simpa using hg
  · simp only [if_true, List.length_set]
    simpa using hg

/-- C9: the invariant `data.size() == length * element_size ∧
null_count ≤ length ∧ null bitmap holds ≥ ceil(length/8) bytes` holds
for a new vector and is preserved by `append(v)` and `append_null()`. -/
theorem spec_invariant_preserved (n : Nat) (c : ChunkedVecInt) (v : Int) (h : SpecInv c) :
    SpecInv (ChunkedVecInt.new n) ∧ SpecInv (c.append v) ∧ SpecInv c.append_null := by
  obtain ⟨h1, h2, h3⟩ := h
  refine ⟨⟨by simp [ChunkedVecInt.new], by simp [ChunkedVecInt.new], by simp [ChunkedVecInt.new]⟩,
    ⟨?_, ?_, ?_⟩, ⟨?_, ?_, ?_⟩⟩
  · set cw : ChunkedVecInt := { c with data := c.data ++ encodeI64LE v } with hcw
    have hdat : (c.append v).data =
        listResize (cw.append_null_bitmap true).data
          (((cw.append_null_bitmap true).length + 1) * ELEMENT_SIZE) 0 := rfl
    have hlen : (c.append v).length = (cw.append_null_bitmap true).length + 1 := rfl
    rw [hdat, hlen, listResize_length]
  · have hcnt : (c.append v).null_cnt =
        ({ c with data := c.data ++ encodeI64LE v
          : ChunkedVecInt }.append_null_bitmap true).null_cnt := rfl
    have hlen : (c.append v).length =
        ({ c with data := c.data ++ encodeI64LE v
          : ChunkedVecInt }.append_null_bitmap true).length + 1 := rfl
    rw [hcnt, hlen, append_null_bitmap_null_cnt, append_null_bitmap_length]
    simp only [if_true]
    omega
  · have hbm : (c.append v).null_bitmap =
        ({ c with data := c.data ++ encodeI64LE v
          : ChunkedVecInt }.append_null_bitmap true).null_bitmap := rfl
    have hlen : (c.append v).length =
        ({ c with data := c.data ++ encodeI64LE v
          : ChunkedVecInt }.append_null_bitmap true).length + 1 := rfl
    rw [hbm, hlen, append_null_bitmap_length]
    exact append_null_bitmap_grow_ge _ true h3
  · have hdat : c.append_null.data =
        listResize (c.append_null_bitmap false).data
          (ELEMENT_SIZE + (c.append_null_bitmap false).data.length) 0 := rfl
    have hlen : c.append_null.length = (c.append_null_bitmap false).length + 1 := rfl
    rw [hdat, hlen, listResize_length, append_null_bitmap_data, append_null_bitmap_length]
    simp [ELEMENT_SIZE] at h1 ⊢
    omega
  · have hcnt : c.append_null.null_cnt = (c.append_null_bitmap false).null_cnt := rfl
    have hlen : c.append_null.length = (c.append_null_bitmap false).length + 1 := rfl
    rw [hcnt, hlen, append_null_bitmap_null_cnt, append_null_bitmap_length]
    simp only [Bool.false_eq_true, if_false]
    omega
  · have hbm : c.append_null.null_bitmap = (c.append_null_bitmap false).null_bitmap := rfl
    have hlen : c.append_null.length = (c.append_null_bitmap false).length + 1 := rfl
    rw [hbm, hlen, append_null_bitmap_length]
    exact append_null_bitmap_grow_ge _ false h3

/-- Witness for C9 at the Scenario A vector. -/
theorem spec_invariant_preserved_witness :
    SpecInv (ChunkedVecInt.from_vec sampleList) ∧
    SpecInv (ChunkedVecInt.new 4) ∧
    SpecInv ((ChunkedVecInt.from_vec sampleList).append 7) ∧
    SpecInv (ChunkedVecInt.from_vec sampleList).append_null := by
  have h := spec_invariant_preserved 4 (ChunkedVecInt.from_vec sampleList) 7 (by decide)
  exact ⟨by decide, h.1, h.2.1, h.2.2⟩

/-! ## Lemmas on the FIRST accumulator -/

theorem update_of_valued {α : Type} (w x : Option α) :
    (AggrFnStateFirst.Valued w).update x = .Valued w := rfl

theorem update_isValued {α : Type} (s : AggrFnStateFirst α) (v : Option α) :
    ∃ w, s.update v = .Valued w := by
  cases s <;> exact ⟨_, rfl⟩

theorem foldl_update_of_valued {α : Type} (lr : List Nat) (g : Nat → Option α)
    (w : Option α) :
    lr.foldl (fun t i => t.update (g i)) (AggrFnStateFirst.Valued w) = .Valued w := by
  induction lr with
  | nil => rfl
  | cons i rest ih => simpa [update_of_valued] using ih

theorem iterate_update_of_valued {α : Type} (v : Option α) (m : Nat) (w : Option α) :
    (fun t : AggrFnStateFirst α => t.update v)^[m] (.Valued w) = .Valued w := by
  induction m with
  | zero => rfl
  | succ m ih => rw [Function.iterate_succ_apply, update_of_valued, ih]

/-! ## Claim theorems: FIRST accumulator and parser -/

/-- C2: one vectorized update equals folding single updates over the
column's values in logical-row-list order (for FIRST only the first
entry matters, which the fold reproduces); the Scenario C instance with
physical values `[None, Some 2]` and logical rows `[1, 0]` ends holding
`2`. -/
theorem update_vector_refines_single_updates {α : Type} (s : AggrFnStateFirst α)
    (pv : List (Option α)) (lr : List Nat) (h : ∀ i ∈ lr, i < pv.length) :
    s.update_vector pv lr = some (lr.foldl (fun t i => t.update (pv.getD i none)) s) ∧
    AggrFnStateFirst.Empty.update_vector [none, some (2 : Int)] [1, 0]
      = some (.Valued (some 2)) := by
  refine ⟨?_, by decide⟩
  cases lr with
  | nil => rfl
  | cons i rest =>
    have hi : i < pv.length := h i (by simp)
    have hgd : pv.getD i none = pv[i] := List.getD_eq_getElem pv none hi
    unfold AggrFnStateFirst.update_vector AggrFnStateFirst.get_option_ref
    simp only [List.head?_cons, List.foldl_cons]
    rw [List.getElem?_eq_getElem hi, hgd]
    obtain ⟨w, hw⟩ := update_isValued s pv[i]
    rw [hw, foldl_update_of_valued]
    show some (s.update pv[i]) = some (AggrFnStateFirst.Valued w)
    rw [hw]

/-- Witness for C2 at the Scenario C inputs. -/
theorem update_vector_refines_single_updates_witness :
    (∀ i ∈ [1, 0], i < [none, some (2 : Int)].length) ∧
    AggrFnStateFirst.Empty.update_vector [none, some (2 : Int)] [1, 0]
      = some (([1, 0] : List Nat).foldl
          (fun t i => t.update ([none, some (2 : Int)].getD i none)) .Empty) :=
  ⟨by decide,
    (update_vector_refines_single_updates AggrFnStateFirst.Empty
      [none, some (2 : Int)] [1, 0] (by decide)).1⟩

/-- C5: the accumulator moves `Empty → Valued(v)` on the first update
only; once `Valued`, single, repeated and vectorized updates (with a
non-empty, in-range row list) all succeed and never change the held
value. -/
theorem first_accumulator_writes_once {α : Type} (v x : Option α) (pv : List (Option α))
    (lr : List Nat) (n : Nat) (hlr : lr ≠ []) (hin : ∀ i ∈ lr, i < pv.length)
    (hn : 0 < n) :
    AggrFnStateFirst.Empty.update v = .Valued v ∧
    (AggrFnStateFirst.Valued v).update x = .Valued v ∧
    (AggrFnStateFirst.Valued v).update_repeat x n = some (.Valued v) ∧
    (AggrFnStateFirst.Valued v).update_vector pv lr = some (.Valued v) := by
  refine ⟨rfl, rfl, ?_, ?_⟩
  · unfold AggrFnStateFirst.update_repeat
    rw [if_pos hn]
    rfl
  · cases lr with
    | nil => exact absurd rfl hlr
    | cons i rest =>
      have hi : i < pv.length := hin i (by simp)
      unfold AggrFnStateFirst.update_vector AggrFnStateFirst.get_option_ref
      simp only [List.head?_cons]
      rw [List.getElem?_eq_getElem hi]
      rfl

/-- Witness for C5. -/
theorem first_accumulator_writes_once_witness :
    ([0] ≠ ([] : List Nat)) ∧ (∀ i ∈ [0], i < [some (3 : Int)].length) ∧ 0 < 2 ∧
    (AggrFnStateFirst.Valued (some (1 : Int))).update_vector [some 3] [0]
      = some (.Valued (some 1)) :=
  ⟨by decide, by decide, by decide,
    (first_accumulator_writes_once (some (1 : Int)) (some 2) [some 3] [0] 2
      (by decide) (by decide) (by decide)).2.2.2⟩

/-- C6: `update_repeat(v, n)` with `n ≥ 1` produces the same final
state as `n` sequential single updates of `v`. -/
theorem update_repeat_refines_iterated_update {α : Type} (s : AggrFnStateFirst α)
    (v : Option α) (n : Nat) (h : 1 ≤ n) :
    s.update_repeat v n = some ((fun t : AggrFnStateFirst α => t.update v)^[n] s) := by
  obtain ⟨m, rfl⟩ : ∃ m, n = m + 1 := ⟨n - 1, by omega⟩
  unfold AggrFnStateFirst.update_repeat
  rw [if_pos (by omega), Function.iterate_succ_apply]
  obtain ⟨w, hw⟩ := update_isValued s v
  rw [hw, iterate_update_of_valued]

/-- Witness for C6 with three repeats from the empty state. -/
theorem update_repeat_refines_iterated_update_witness :
    1 ≤ 3 ∧
    AggrFnStateFirst.Empty.update_repeat (some (5 : Int)) 3
      = some ((fun t : AggrFnStateFirst Int => t.update (some 5))^[3] .Empty) :=
  ⟨by decide, update_repeat_refines_iterated_update AggrFnStateFirst.Empty (some 5) 3
    (by decide)⟩

/-- C8: `push_result` appends exactly one value to the single output
vector — null while `Empty`, else the held value — and a vectorized
update with an empty logical row list leaves the state unchanged, so an
untouched group still extracts null. -/
theorem push_result_appends_held_value {α : Type} (s : AggrFnStateFirst α)
    (out : List (Option α)) (pv : List (Option α)) :
    s.push_result [out] = some [out ++ [s.heldValue]] ∧
    AggrFnStateFirst.Empty.update_vector pv ([] : List Nat)
      = some (.Empty : AggrFnStateFirst α) ∧
    (AggrFnStateFirst.Empty : AggrFnStateFirst α).push_result [out]
      = some [out ++ [none]] := by
  refine ⟨?_, rfl, rfl⟩
  cases s <;> rfl

/-- C10: a null first arrival occupies the accumulator: the state
becomes `Valued none`, later updates (null or not) do not displace it,
and result extraction yields null. -/
theorem null_first_arrival_wins {α : Type} (x : Option α) (out : List (Option α)) :
    AggrFnStateFirst.Empty.update (none : Option α) = .Valued none ∧
    (AggrFnStateFirst.Valued (none : Option α)).update x = .Valued none ∧
    (AggrFnStateFirst.Valued (none : Option α)).push_result [out]
      = some [out ++ [none]] :=
  ⟨rfl, rfl, rfl⟩

/-- C7: a FIRST descriptor whose declared output type maps to a logical
type different from the child operand's fails `parse` with the
type-mismatch error — a recoverable error, not a panic — and no state
machine is constructed. -/
theorem parse_rejects_output_type_mismatch (children : List Expr) (child : Expr)
    (out_ft : FieldTypeTp) (et ot : EvalType)
    (hch : children.head? = some child)
    (hc : evalTypeTryFrom child.field_type = .ok et)
    (ho : evalTypeTryFrom out_ft = .ok ot)
    (hne : ot ≠ et) :
    parse (Expr.mk ExprType.First children out_ft)
      = some (Except.error "Unexpected return field type") := by
  obtain ⟨ctp, cch, cft⟩ := child
  simp only [Expr.field_type] at hc
  unfold parse
  rw [if_neg (by simp [Expr.tp])]
  simp only [Expr.children, Expr.field_type, hch, hc, ho]
  rw [if_pos hne]

/-- Witness for C7 at the Scenario B descriptor: FIRST with output
Double over a LongLong column reference. -/
theorem parse_rejects_output_type_mismatch_witness :
    ([Expr.mk ExprType.ColumnRef [] FieldTypeTp.LongLong].head?
      = some (Expr.mk ExprType.ColumnRef [] FieldTypeTp.LongLong)) ∧
    evalTypeTryFrom FieldTypeTp.LongLong = .ok EvalType.Int ∧
    evalTypeTryFrom FieldTypeTp.Double = .ok EvalType.Real ∧
    EvalType.Real ≠ EvalType.Int ∧
    parse (Expr.mk ExprType.First [Expr.mk ExprType.ColumnRef [] FieldTypeTp.LongLong]
        FieldTypeTp.Double)
      = some (Except.error "Unexpected return field type") :=
  ⟨rfl, rfl, rfl, by decide,
    parse_rejects_output_type_mismatch _ _ FieldTypeTp.Double EvalType.Int EvalType.Real
      rfl rfl rfl (by decide)⟩

end TikvChunk
